import Mathlib

/-!
The build orchestrator of map-generator (`main.go`).

A shallow embedding of `src/map-generator/main.go` (the map registry, the
asset locator, the per-map build job and the orchestrator) together with the
properties of it that are checked against the specification.

Go strings are modelled by `String` (the operations used here, comparison,
concatenation and splitting on an ASCII separator, agree on the UTF-8 bytes and
on the characters), byte slices by `List Nat`, Go `int` by `Int`, and a Go
`error` by `Option Error` where `none` is the `nil` error.
-/

set_option autoImplicit false

namespace MapGenerator

/-! ## Errors -/

/-- Error values. `ext` is an error handed back by an external call (the
operating system, `encoding/json`, the terrain generator); `errorf` is
`fmt.Errorf(format, args...)` without `%w`; `wrapf` is `fmt.Errorf` whose last
verb is `%w`, wrapping `cause`. The format string is kept verbatim and is not
interpreted. -/
inductive Error where
  | ext (msg : String)
  | errorf (format : String) (args : List String)
  | wrapf (format : String) (args : List String) (cause : Error)
  deriving DecidableEq, Repr

/-- A Go value of type `error`: `none` is `nil`. -/
abbrev GoError := Option Error

/-- Go byte slices. -/
abbrev Bytes := List Nat

/-! ## Go maps -/

/-- A non-nil Go map with string keys: an association list in which the first
binding of a key is the live one. -/
abbrev GoMap (V : Type) := List (String × V)

/-- The lookup `m[k]` in its comma-ok form. -/
def GoMap.get? {V : Type} (m : GoMap V) (k : String) : Option V :=
  match m with
  | [] => none
  | (k', v) :: rest => if k' = k then some v else GoMap.get? rest k

/-- The assignment `m[k] = v` on a non-nil map: the binding of `k` is replaced
or added, every other binding is left alone. -/
def GoMap.set {V : Type} (m : GoMap V) (k : String) (v : V) : GoMap V :=
  match m with
  | [] => [(k, v)]
  | (k', v') :: rest => if k' = k then (k, v) :: rest else (k', v') :: GoMap.set rest k v

/-- The lookup `m[k]` on a `map[string]bool`: the zero value `false` when the
key is absent. -/
def GoMap.getBool (m : GoMap Bool) (k : String) : Bool :=
  (GoMap.get? m k).getD false

/-! ## The map registry -/

/-- An element of the registry `maps`: the anonymous struct
`struct { Name string; IsTest bool }`. -/
structure MapItem where
  Name : String
  IsTest : Bool := false
  deriving DecidableEq, Repr

/-- The registry `maps` (main.go, lines 21-70), in source order. -/
def maps : List MapItem := [
  { Name := "africa" },
  { Name := "asia" },
  { Name := "australia" },
  { Name := "achiran" },
  { Name := "baikal" },
  { Name := "baikalnukewars" },
  { Name := "betweentwoseas" },
  { Name := "blacksea" },
  { Name := "britannia" },
  { Name := "deglaciatedantarctica" },
  { Name := "eastasia" },
  { Name := "europe" },
  { Name := "europeclassic" },
  { Name := "falklandislands" },
  { Name := "faroeislands" },
  { Name := "fourislands" },
  { Name := "gatewaytotheatlantic" },
  { Name := "giantworldmap" },
  { Name := "gulfofstlawrence" },
  { Name := "halkidiki" },
  { Name := "iceland" },
  { Name := "italia" },
  { Name := "japan" },
  { Name := "lisbon" },
  { Name := "manicouagan" },
  { Name := "mars" },
  { Name := "mena" },
  { Name := "montreal" },
  { Name := "newyorkcity" },
  { Name := "northamerica" },
  { Name := "oceania" },
  { Name := "pangaea" },
  { Name := "pluto" },
  { Name := "southamerica" },
  { Name := "straitofgibraltar" },
  { Name := "surrounded" },
  { Name := "svalmel" },
  { Name := "world" },
  { Name := "lemnos" },
  { Name := "twolakes" },
  { Name := "big_plains", IsTest := true },
  { Name := "half_land_half_ocean", IsTest := true },
  { Name := "ocean_and_land", IsTest := true },
  { Name := "plains", IsTest := true },
  { Name := "giantworldmap", IsTest := true }
]

/-! ## `strings.Split` -/

/-- Splitting a character list at every occurrence of `sep`; the pieces keep
their order and an empty input gives one empty piece. -/
def splitChars (sep : Char) : List Char → List (List Char)
  | [] => [[]]
  | c :: cs =>
    if c = sep then [] :: splitChars sep cs
    else
      match splitChars sep cs with
      | [] => [[c]]
      | piece :: pieces => (c :: piece) :: pieces

/-- The call `strings.Split(s, sep)` for a one-character separator. -/
def stringsSplit (s : String) (sep : Char) : List String :=
  (splitChars sep s.data).map String.mk

/-! ## The orchestrator -/

/-- The first loop of `parseMapsFlag`: `validNames[m.Name] = true` for every
registry entry. -/
def validNames : GoMap Bool :=
  maps.foldl (fun acc m => GoMap.set acc m.Name true) []

/-- The second loop of `parseMapsFlag` over the tokens that remain, with the
`selected` map built so far: the first token that is not a valid name ends the
loop with an error. -/
def selectLoop (selected : GoMap Bool) : List String → Except Error (GoMap Bool)
  | [] => .ok selected
  | name :: rest =>
    if !GoMap.getBool validNames name then
      .error (.errorf "map %q is not defined" [name])
    else
      selectLoop (GoMap.set selected name true) rest

/-- The function `parseMapsFlag` (main.go, lines 188-206), with the global
`mapsFlag` as its argument. `.ok none` is the result `nil, nil`. -/
def parseMapsFlag (mapsFlag : String) : Except Error (Option (GoMap Bool)) :=
  if mapsFlag = "" then .ok none
  else
    match selectLoop [] (stringsSplit mapsFlag ',') with
    | .error err => .error err
    | .ok selected => .ok (some selected)

/-- The guard of the launch loop of `loadTerrainMaps`: the entry is skipped
when `selectedMaps != nil && !selectedMaps[mapItem.Name]`. -/
def skipped (selectedMaps : Option (GoMap Bool)) (mapItem : MapItem) : Bool :=
  match selectedMaps with
  | none => false
  | some selected => !GoMap.getBool selected mapItem.Name

/-- The goroutines started by the launch loop of `loadTerrainMaps`, in launch
order: one per registry entry that is not skipped. -/
def launched (selectedMaps : Option (GoMap Bool)) : List MapItem :=
  maps.filter (fun mapItem => !skipped selectedMaps mapItem)

/-- The sends of the goroutines on `errChan`, in the order in which the jobs
complete: a job sends its error only when it is not `nil`. The channel's
capacity is `len(maps)`, at least the number of jobs, so no send blocks. -/
def sendErrors (processMap : MapItem → GoError) : List MapItem → List GoError
  | [] => []
  | mapItem :: rest =>
    match processMap mapItem with
    | none => sendErrors processMap rest
    | some err => some err :: sendErrors processMap rest

/-- The drain loop `for err := range errChan` after the channel is closed: the
first value that is not `nil` is returned, and `nil` when there is none. -/
def drain : List GoError → GoError
  | [] => none
  | none :: rest => drain rest
  | some err :: _ => some err

/-- What a run of `loadTerrainMaps` does: the entries on which `processMap`
was invoked, and the error returned. -/
structure Run where
  processed : List MapItem
  result : GoError
  deriving DecidableEq, Repr

/-- The function `loadTerrainMaps` (main.go, lines 210-245). `processMap` gives
the outcome of the job of each entry; `order` is the order in which the
launched goroutines run to completion, which the Go scheduler is free to choose
among the permutations of `launched` (`wg.Wait` returns once all of them are
done). -/
def loadTerrainMaps (mapsFlag : String) (processMap : MapItem → GoError)
    (order : List MapItem) : Run :=
  match parseMapsFlag mapsFlag with
  | .error err => { processed := [], result := some err }
  | .ok _ => { processed := order, result := drain (sendErrors processMap order) }

/-! ## `path/filepath` on a Unix system -/

/-- The elements kept while a path is cleaned: `ups` counts the leading `..`
elements (they are kept in a path that is not rooted only), `stack` holds the
ordinary elements after them, the last one first. -/
structure CleanState where
  ups : Nat
  stack : List (List Char)
  deriving DecidableEq, Repr

/-- One element of the path under cleaning: an empty element and `.` are
dropped, `..` removes the last ordinary element when there is one and
otherwise is kept in front (dropped when the path is rooted), any other element
is kept. -/
def cleanStep (rooted : Bool) (st : CleanState) (elem : List Char) : CleanState :=
  if elem = [] ∨ elem = ['.'] then st
  else if elem = ['.', '.'] then
    match st.stack with
    | _ :: rest => { st with stack := rest }
    | [] => if rooted then st else { st with ups := st.ups + 1 }
  else { st with stack := elem :: st.stack }

/-- The elements joined by `/`, as `strings.Join(elems, "/")` does. -/
def joinSlash : List (List Char) → List Char
  | [] => []
  | [elem] => elem
  | elem :: next :: rest => elem ++ '/' :: joinSlash (next :: rest)

/-- The path that a cleaning state stands for: `/` in front when rooted, the
kept elements separated by `/`, and `.` for the empty relative path. -/
def renderPath (rooted : Bool) (st : CleanState) : List Char :=
  let elems := List.replicate st.ups ['.', '.'] ++ st.stack.reverse
  if rooted then '/' :: joinSlash elems
  else if elems = [] then ['.'] else joinSlash elems

/-- The function `filepath.Clean` on the characters of a path: the shortest
path equivalent to it by purely lexical processing. -/
def cleanChars (path : List Char) : List Char :=
  let rooted : Bool := path.head? = some '/'
  renderPath rooted ((splitChars '/' path).foldl (cleanStep rooted) { ups := 0, stack := [] })

/-- The function `filepath.Join`: empty elements in front are ignored, the
remaining ones are joined by `/` and the result is cleaned; with nothing but
empty elements the result is the empty string. -/
def filepathJoin : List String → String
  | [] => ""
  | elem :: rest =>
    if elem = "" then filepathJoin rest
    else String.mk (cleanChars (joinSlash ((elem :: rest).map String.data)))

/-- An ordinary path element: not empty, not `.`, not `..`, and without a
separator in it. -/
def Ordinary (elem : List Char) : Prop :=
  elem ≠ [] ∧ elem ≠ ['.'] ∧ elem ≠ ['.', '.'] ∧ '/' ∉ elem

/-- The characters that a rendered path puts in front of the elements pushed
onto the state `st`: the root, the elements already kept, and a separator. -/
def dirPrefix (rooted : Bool) (st : CleanState) : List Char :=
  (if rooted then ['/'] else []) ++
    (if List.replicate st.ups ['.', '.'] ++ st.stack.reverse = [] then []
     else joinSlash (List.replicate st.ups ['.', '.'] ++ st.stack.reverse) ++ ['/'])

/-- A cleaning state as the cleaning of a path leaves it: no `..` is kept when
the path is rooted, and the kept elements are ordinary. -/
def GoodState (rooted : Bool) (st : CleanState) : Prop :=
  (rooted = true → st.ups = 0) ∧ ∀ e ∈ st.stack, Ordinary e

/-! ## The per-map build job -/

/-- Modelled from the spec: the struct `GeneratorArgs` is declared outside
main.go; its fields are those of the composite literal in `processMap` (raw
image bytes, the remove-small-islands flag, the map name). -/
structure GeneratorArgs where
  ImageBuffer : Bytes
  RemoveSmall : Bool
  Name : String
  deriving DecidableEq, Repr

/-- Modelled from the spec: one terrain variant of the generator result, with
the fields `processMap` reads (`Data`, `Width`, `Height`, `NumLandTiles`); the
type is declared outside main.go. -/
structure MapInfo where
  Data : Bytes
  Width : Int
  Height : Int
  NumLandTiles : Int
  deriving DecidableEq, Repr

/-- Modelled from the spec: the result of `GenerateMap`, three terrain variants
and a thumbnail, with the fields `processMap` reads; the type is declared
outside main.go. -/
structure MapResult where
  Map : MapInfo
  Map4x : MapInfo
  Map16x : MapInfo
  Thumbnail : Bytes
  deriving DecidableEq, Repr

/-- A value that `encoding/json` decoded into an `interface{}`. `main.go` never
looks into such a value, it stores it and hands it back to the encoder, so it
is kept as a token. -/
structure JSONValue where
  token : String
  deriving DecidableEq, Repr

/-- The dynamic values held by the manifest `map[string]interface{}`: a value
decoded from info.json, or one of the summary maps
`map[string]interface{}{"width": .., "height": .., "num_land_tiles": ..}` whose
values are Go `int`s. -/
inductive Value where
  | decoded (v : JSONValue)
  | summary (fields : GoMap Int)
  deriving DecidableEq, Repr

/-- The manifest, a non-nil `map[string]interface{}`. -/
abbrev Manifest := GoMap Value

/-- The collaborators of `processMap`: the operating system, `encoding/json`
and the terrain generator. `unmarshal` is `json.Unmarshal(data, &manifest)` on
the nil map `manifest`; `.ok none` means that the call succeeded and left the
map nil, which is what it does on the document `null`. -/
structure Env where
  getwd : Except Error String
  readFile : String → Except Error Bytes
  unmarshal : Bytes → Except Error (Option Manifest)
  generateMap : GeneratorArgs → Except Error MapResult
  mkdirAll : String → Nat → GoError
  writeFile : String → Bytes → Nat → GoError
  marshalIndent : Manifest → Except Error Bytes

/-- The calls that `processMap` makes to its collaborators. -/
inductive Event where
  | readFile (path : String)
  | unmarshal (data : Bytes)
  | generateMap (args : GeneratorArgs)
  | mkdirAll (path : String) (perm : Nat)
  | writeFile (path : String) (data : Bytes) (perm : Nat)
  | marshalIndent (manifest : Manifest)
  deriving DecidableEq, Repr

/-- How a call of `processMap` ends: it returns an `error` value, or it aborts
with a run-time panic. -/
inductive Outcome where
  | returned (err : GoError)
  | panicked (msg : String)
  deriving DecidableEq, Repr

/-- The function `outputMapDir` (main.go, lines 74-83). -/
def outputMapDir (env : Env) (isTest : Bool) : Except Error String :=
  match env.getwd with
  | .error err => .error (.wrapf "failed to get working directory: %w" [] err)
  | .ok cwd =>
    if isTest then .ok (filepathJoin [cwd, "..", "tests", "testdata", "maps"])
    else .ok (filepathJoin [cwd, "..", "resources", "maps"])

/-- The function `inputMapDir` (main.go, lines 87-97). -/
def inputMapDir (env : Env) (isTest : Bool) : Except Error String :=
  match env.getwd with
  | .error err => .error (.wrapf "failed to get working directory: %w" [] err)
  | .ok cwd =>
    if isTest then .ok (filepathJoin [cwd, "assets", "test_maps"])
    else .ok (filepathJoin [cwd, "assets", "maps"])

/-- The elements that `outputMapDir` joins onto the parent of the working
directory. -/
def outputRoot (isTest : Bool) : List String :=
  if isTest then ["tests", "testdata", "maps"] else ["resources", "maps"]

/-- The elements that `inputMapDir` joins onto the working directory. -/
def inputRoot (isTest : Bool) : List String :=
  if isTest then ["assets", "test_maps"] else ["assets", "maps"]

/-- The directory `mapDir := filepath.Join(outputMapBaseDir, name)` into which
`processMap` writes the outputs of a registry entry (main.go, line 157). -/
def mapOutputDir (env : Env) (mapItem : MapItem) : Except Error String :=
  match outputMapDir env mapItem.IsTest with
  | .error err => .error err
  | .ok outputMapBaseDir => .ok (filepathJoin [outputMapBaseDir, mapItem.Name])

/-- The names of the five files that `processMap` writes into `mapDir`. -/
def outputFiles : List String :=
  ["map.bin", "map4x.bin", "map16x.bin", "thumbnail.webp", "manifest.json"]

/-- The summary map literal that `processMap` builds for one terrain variant. -/
def summaryOf (info : MapInfo) : Value :=
  .summary [("width", info.Width), ("height", info.Height),
    ("num_land_tiles", info.NumLandTiles)]

/-- The three assignments `manifest["map"] = ..`, `manifest["map4x"] = ..` and
`manifest["map16x"] = ..` of `processMap` (main.go, lines 141-155) on a non-nil
manifest. -/
def mergeSummaries (manifest : Manifest) (result : MapResult) : Manifest :=
  GoMap.set (GoMap.set (GoMap.set manifest "map" (summaryOf result.Map))
    "map4x" (summaryOf result.Map4x)) "map16x" (summaryOf result.Map16x)

/-- The output steps of `processMap` (main.go, lines 157-183) once the merged
manifest is at hand: the directory, the four artifacts, the serialisation and
the manifest, each step run only when the one before it succeeded. The file
modes `0755` and `0644` are 493 and 420. -/
def writeOutputs (env : Env) (name mapDir : String) (result : MapResult)
    (manifest : Manifest) : List Event × Outcome :=
  let t5 := [Event.mkdirAll mapDir 493]
  match env.mkdirAll mapDir 493 with
  | some err =>
    (t5, .returned (some (.wrapf "failed to create output directory for %s: %w" [name] err)))
  | none =>
  let t6 := t5 ++ [Event.writeFile (filepathJoin [mapDir, "map.bin"]) result.Map.Data 420]
  match env.writeFile (filepathJoin [mapDir, "map.bin"]) result.Map.Data 420 with
  | some err =>
    (t6, .returned (some (.wrapf "failed to write combined binary for %s: %w" [name] err)))
  | none =>
  let t7 := t6 ++ [Event.writeFile (filepathJoin [mapDir, "map4x.bin"]) result.Map4x.Data 420]
  match env.writeFile (filepathJoin [mapDir, "map4x.bin"]) result.Map4x.Data 420 with
  | some err =>
    (t7, .returned (some (.wrapf "failed to write combined binary for %s: %w" [name] err)))
  | none =>
  let t8 := t7 ++ [Event.writeFile (filepathJoin [mapDir, "map16x.bin"]) result.Map16x.Data 420]
  match env.writeFile (filepathJoin [mapDir, "map16x.bin"]) result.Map16x.Data 420 with
  | some err =>
    (t8, .returned (some (.wrapf "failed to write combined binary for %s: %w" [name] err)))
  | none =>
  let t9 := t8 ++ [Event.writeFile (filepathJoin [mapDir, "thumbnail.webp"]) result.Thumbnail 420]
  match env.writeFile (filepathJoin [mapDir, "thumbnail.webp"]) result.Thumbnail 420 with
  | some err =>
    (t9, .returned (some (.wrapf "failed to write thumbnail for %s: %w" [name] err)))
  | none =>
  let t10 := t9 ++ [Event.marshalIndent manifest]
  match env.marshalIndent manifest with
  | .error err =>
    (t10, .returned (some (.wrapf "failed to serialize manifest for %s: %w" [name] err)))
  | .ok updatedManifest =>
  let t11 := t10 ++ [Event.writeFile (filepathJoin [mapDir, "manifest.json"]) updatedManifest 420]
  match env.writeFile (filepathJoin [mapDir, "manifest.json"]) updatedManifest 420 with
  | some err =>
    (t11, .returned (some (.wrapf "failed to write manifest for %s: %w" [name] err)))
  | none => (t11, .returned none)

/-- The function `processMap` (main.go, lines 101-184): the calls made to the
collaborators, in order, and the way the call ends. An assignment to an entry
of a nil map is a run-time panic in Go. -/
def processMap (env : Env) (name : String) (isTest : Bool) : List Event × Outcome :=
  match outputMapDir env isTest with
  | .error err => ([], .returned (some (.wrapf "failed to get map directory: %w" [] err)))
  | .ok outputMapBaseDir =>
  match inputMapDir env isTest with
  | .error err =>
    ([], .returned (some (.wrapf "failed to get input map directory: %w" [] err)))
  | .ok inputMapDir =>
  let inputPath := filepathJoin [inputMapDir, name, "image.png"]
  let t1 := [Event.readFile inputPath]
  match env.readFile inputPath with
  | .error err =>
    (t1, .returned (some (.wrapf "failed to read map file %s: %w" [inputPath] err)))
  | .ok imageBuffer =>
  let manifestPath := filepathJoin [inputMapDir, name, "info.json"]
  let t2 := t1 ++ [Event.readFile manifestPath]
  match env.readFile manifestPath with
  | .error err =>
    (t2, .returned (some (.wrapf "failed to read info file %s: %w" [manifestPath] err)))
  | .ok manifestBuffer =>
  let t3 := t2 ++ [Event.unmarshal manifestBuffer]
  match env.unmarshal manifestBuffer with
  | .error err =>
    (t3, .returned (some (.wrapf "failed to parse info.json for %s: %w" [name] err)))
  | .ok manifest =>
  let args : GeneratorArgs :=
    { ImageBuffer := imageBuffer, RemoveSmall := !isTest, Name := name }
  let t4 := t3 ++ [Event.generateMap args]
  match env.generateMap args with
  | .error err =>
    (t4, .returned (some (.wrapf "failed to generate map for %s: %w" [name] err)))
  | .ok result =>
  match manifest with
  | none => (t4, .panicked "assignment to entry in nil map")
  | some manifest =>
  let out := writeOutputs env name (filepathJoin [outputMapBaseDir, name]) result
    (mergeSummaries manifest result)
  (t4 ++ out.1, out.2)

/-! ## Reading a trace -/

/-- The arguments of the calls of `GenerateMap` in a trace, in order. -/
def generatorCalls (trace : List Event) : List GeneratorArgs :=
  trace.filterMap (fun e => match e with
    | .generateMap args => some args
    | _ => none)

/-- The manifests handed to `json.MarshalIndent` in a trace, in order. -/
def serialised (trace : List Event) : List Manifest :=
  trace.filterMap (fun e => match e with
    | .marshalIndent manifest => some manifest
    | _ => none)

/-- The path and the content of the calls of `os.WriteFile` in a trace, in
order. -/
def writes (trace : List Event) : List (String × Bytes) :=
  trace.filterMap (fun e => match e with
    | .writeFile path data _ => some (path, data)
    | _ => none)

/-- The calls that bring inputs in: reading a file, decoding info.json and
running the generator. The other calls are the output steps. -/
def Event.isInput : Event → Bool
  | .readFile _ => true
  | .unmarshal _ => true
  | .generateMap _ => true
  | _ => false

/-- An output step that failed: a call of `os.MkdirAll` or of `os.WriteFile`
that returned an error. -/
def Event.failed (env : Env) : Event → Bool
  | .mkdirAll path perm => (env.mkdirAll path perm).isSome
  | .writeFile path data perm => (env.writeFile path data perm).isSome
  | _ => false

/-- A write of manifest.json in the directory `mapDir`. -/
def Event.isManifestWrite (mapDir : String) : Event → Bool
  | .writeFile path _ _ => path = filepathJoin [mapDir, "manifest.json"]
  | _ => false

/-! ## Sample inputs -/

/-- A file system with the assets of the production map `world` under the
working directory `/repo/map-generator`, where info.json decodes to a
document with the keys `name` and `map`, and every write succeeds. -/
def sampleEnv : Env where
  getwd := .ok "/repo/map-generator"
  readFile := fun path =>
    if path = "/repo/map-generator/assets/maps/world/image.png" then .ok [137, 80, 78, 71]
    else if path = "/repo/map-generator/assets/maps/world/info.json" then .ok [123, 125]
    else .error (.ext "no such file or directory")
  unmarshal := fun data =>
    if data = [123, 125] then
      .ok (some [("name", .decoded { token := "World" }), ("map", .decoded { token := "stale" })])
    else .error (.ext "invalid character")
  generateMap := fun args =>
    .ok { Map := { Data := args.ImageBuffer, Width := 8, Height := 4, NumLandTiles := 20 },
          Map4x := { Data := [1], Width := 4, Height := 2, NumLandTiles := 5 },
          Map16x := { Data := [2], Width := 2, Height := 1, NumLandTiles := 1 },
          Thumbnail := [3] }
  mkdirAll := fun _ _ => none
  writeFile := fun _ _ _ => none
  marshalIndent := fun _ => .ok [123, 125]

/-- The environment `sampleEnv` with an info.json that holds the JSON document
`null`: `json.Unmarshal` accepts it and leaves the manifest nil. -/
def nullInfoEnv : Env :=
  { sampleEnv with unmarshal := fun _ => .ok none }

/-- The environment `sampleEnv` on a disk where map16x.bin cannot be written. -/
def fullDiskEnv : Env :=
  { sampleEnv with
    writeFile := fun path _ _ =>
      if path = "/repo/resources/maps/world/map16x.bin" then some (.ext "no space left on device")
      else none }

/-! ## Theorems -/

/-! ## Go maps -/

theorem GoMap.get?_set {V : Type} (m : GoMap V) (k k' : String) (v : V) :
    GoMap.get? (GoMap.set m k v) k' = if k = k' then some v else GoMap.get? m k' := by
  induction m with
  | nil => simp [GoMap.set, GoMap.get?]
  | cons p rest ih =>
    obtain ⟨k0, v0⟩ := p
    by_cases h0 : k0 = k
    · subst h0
      by_cases h1 : k0 = k' <;> simp [GoMap.set, GoMap.get?, h1]
    · by_cases h1 : k0 = k'
      · subst h1
        have h2 : ¬ k = k0 := fun h => h0 h.symm
        simp [GoMap.set, GoMap.get?, h0, h2]
      · simp [GoMap.set, GoMap.get?, h0, h1, ih]

theorem GoMap.getBool_set_true (m : GoMap Bool) (k k' : String) :
    GoMap.getBool (GoMap.set m k true) k' = true ↔ k = k' ∨ GoMap.getBool m k' = true := by
  unfold GoMap.getBool
  rw [GoMap.get?_set]
  by_cases h : k = k' <;> simp [h]

theorem GoMap.getBool_nil (k : String) : GoMap.getBool [] k = false := rfl

/-! ## `parseMapsFlag` -/

theorem getBool_foldl_names (names : List MapItem) (acc : GoMap Bool) (k : String) :
    GoMap.getBool (names.foldl (fun acc m => GoMap.set acc m.Name true) acc) k = true ↔
      GoMap.getBool acc k = true ∨ ∃ m ∈ names, m.Name = k := by
  induction names generalizing acc with
  | nil => simp
  | cons m rest ih =>
    rw [List.foldl_cons, ih, GoMap.getBool_set_true]
    constructor
    · rintro ((h | h) | ⟨m', hm', h⟩)
      · exact Or.inr ⟨m, List.mem_cons_self _ _, h⟩
      · exact Or.inl h
      · exact Or.inr ⟨m', List.mem_cons_of_mem _ hm', h⟩
    · rintro (h | ⟨m', hm', h⟩)
      · exact Or.inl (Or.inr h)
      · rcases List.mem_cons.mp hm' with rfl | hm'
        · exact Or.inl (Or.inl h)
        · exact Or.inr ⟨m', hm', h⟩

/-- The map `validNames` holds exactly the names of the registry. -/
theorem getBool_validNames (k : String) :
    GoMap.getBool validNames k = true ↔ ∃ m ∈ maps, m.Name = k := by
  unfold validNames
  rw [getBool_foldl_names]
  simp [GoMap.getBool_nil]

theorem selectLoop_ok (toks : List String) (selected : GoMap Bool)
    (h : ∀ t ∈ toks, ∃ m ∈ maps, m.Name = t) :
    ∃ sel, selectLoop selected toks = .ok sel ∧
      ∀ k, GoMap.getBool sel k = true ↔ GoMap.getBool selected k = true ∨ k ∈ toks := by
  induction toks generalizing selected with
  | nil => exact ⟨selected, rfl, by simp⟩
  | cons t rest ih =>
    have ht : GoMap.getBool validNames t = true :=
      (getBool_validNames t).mpr (h t (List.mem_cons_self _ _))
    obtain ⟨sel, hsel, hk⟩ := ih (GoMap.set selected t true)
      (fun t' ht' => h t' (List.mem_cons_of_mem _ ht'))
    refine ⟨sel, by simp [selectLoop, ht, hsel], fun k => ?_⟩
    rw [hk, GoMap.getBool_set_true, List.mem_cons]
    constructor
    · rintro ((h1 | h1) | h1)
      · exact Or.inr (Or.inl h1.symm)
      · exact Or.inl h1
      · exact Or.inr (Or.inr h1)
    · rintro (h1 | h1 | h1)
      · exact Or.inl (Or.inr h1)
      · exact Or.inl (Or.inl h1.symm)
      · exact Or.inr h1

theorem selectLoop_error (toks : List String) (selected : GoMap Bool)
    (h : ∃ t ∈ toks, ∀ m ∈ maps, m.Name ≠ t) :
    ∃ err, selectLoop selected toks = .error err := by
  induction toks generalizing selected with
  | nil => simp at h
  | cons t rest ih =>
    by_cases ht : GoMap.getBool validNames t = true
    · obtain ⟨t', ht', hbad⟩ := h
      rcases List.mem_cons.mp ht' with rfl | ht'
      · obtain ⟨m, hm, hmt⟩ := (getBool_validNames _).mp ht
        exact absurd hmt (hbad m hm)
      · obtain ⟨err, herr⟩ := ih (GoMap.set selected t true) ⟨t', ht', hbad⟩
        exact ⟨err, by simp [selectLoop, ht, herr]⟩
    · exact ⟨.errorf "map %q is not defined" [t], by simp [selectLoop, ht]⟩

/-- A flag that `parseMapsFlag` accepts is empty, or all its tokens are names
of the registry and the selected set holds exactly the tokens. -/
theorem parseMapsFlag_ok (mapsFlag : String) (sel : Option (GoMap Bool))
    (h : parseMapsFlag mapsFlag = .ok sel) :
    (mapsFlag = "" ∧ sel = none) ∨
    (mapsFlag ≠ "" ∧ ∃ selected, sel = some selected ∧
      ∀ k, GoMap.getBool selected k = true ↔ k ∈ stringsSplit mapsFlag ',') := by
  unfold parseMapsFlag at h
  by_cases hflag : mapsFlag = ""
  · left
    simp [hflag] at h
    exact ⟨hflag, h.symm⟩
  · right
    refine ⟨hflag, ?_⟩
    simp only [hflag, if_false] at h
    by_cases hall : ∀ t ∈ stringsSplit mapsFlag ',', ∃ m ∈ maps, m.Name = t
    · obtain ⟨selected, hsel, hk⟩ := selectLoop_ok _ [] hall
      rw [hsel] at h
      simp only [Except.ok.injEq] at h
      exact ⟨selected, h.symm, fun k => by rw [hk]; simp [GoMap.getBool_nil]⟩
    · have hbad : ∃ t ∈ stringsSplit mapsFlag ',', ∀ m ∈ maps, m.Name ≠ t := by
        by_contra hcon
        apply hall
        intro t ht
        by_contra hno
        exact hcon ⟨t, ht, fun m hm hmt => hno ⟨m, hm, hmt⟩⟩
      obtain ⟨err, herr⟩ := selectLoop_error _ [] hbad
      rw [herr] at h
      cases h

/-- Membership in the launched list. -/
theorem mem_launched (sel : Option (GoMap Bool)) (e : MapItem) :
    e ∈ launched sel ↔ e ∈ maps ∧ skipped sel e = false := by
  simp [launched]

theorem maps_nodup : maps.Nodup := by decide

theorem launched_nodup (sel : Option (GoMap Bool)) : (launched sel).Nodup :=
  maps_nodup.filter _

/-! ## The failure channel -/

theorem drain_sendErrors_none (processMap : MapItem → GoError) (order : List MapItem) :
    drain (sendErrors processMap order) = none ↔ ∀ e ∈ order, processMap e = none := by
  induction order with
  | nil => simp [sendErrors, drain]
  | cons e rest ih =>
    cases he : processMap e with
    | none => simp [sendErrors, he, ih]
    | some err => simp [sendErrors, he, drain]

theorem drain_sendErrors_some (processMap : MapItem → GoError) (order : List MapItem)
    (err : Error) (h : drain (sendErrors processMap order) = some err) :
    ∃ e ∈ order, processMap e = some err := by
  induction order with
  | nil => simp [sendErrors, drain] at h
  | cons e rest ih =>
    cases he : processMap e with
    | none =>
      simp only [sendErrors, he] at h
      obtain ⟨e', he', h'⟩ := ih h
      exact ⟨e', List.mem_cons_of_mem _ he', h'⟩
    | some err' =>
      simp only [sendErrors, he, drain, Option.some.injEq] at h
      exact ⟨e, List.mem_cons_self _ _, by rw [he, h]⟩

/-! ## The registry -/

/-- No name of the registry holds a comma, so a flag made of one registry name
has that name as its only token. -/
theorem stringsSplit_registry_name :
    ∀ m ∈ maps, m.Name ≠ "" ∧ stringsSplit m.Name ',' = [m.Name] := by
  decide

/-- C9 (as stated, refuted): the names of the registry are not pairwise
different, `giantworldmap` is the name of two entries. -/
theorem registry_names_not_unique : ¬ (maps.map (fun m => m.Name)).Nodup := by
  decide

/-- C9 (amended): every entry of the registry has a non-empty name, no two
entries agree on both `Name` and `IsTest`, and the one name borne by two
entries is `giantworldmap`, once as a production map and once as a test map. -/
theorem registry_entries_unique :
    (∀ m ∈ maps, m.Name ≠ "") ∧
    maps.Pairwise (fun a b => a.Name = b.Name → a.IsTest ≠ b.IsTest) ∧
    maps.Pairwise (fun a b => a.Name = b.Name → a.Name = "giantworldmap") := by
  refine ⟨by decide, by decide, by decide⟩

/-! ## The orchestrator -/

/-- C1: a non-empty flag with a token that is no registry name makes
`parseMapsFlag` return an error, and `loadTerrainMaps` returns that very error
having invoked `processMap` on no entry, whatever the jobs would do and in
whatever order they would run; an empty flag, or a flag all of whose tokens are
registry names, is accepted by `parseMapsFlag`. -/
theorem unknown_name_fails_before_any_job (mapsFlag : String) :
    ((mapsFlag ≠ "" ∧ ∃ tok ∈ stringsSplit mapsFlag ',', ∀ m ∈ maps, m.Name ≠ tok) →
      ∃ err, parseMapsFlag mapsFlag = .error err ∧
        ∀ (processMap : MapItem → GoError) (order : List MapItem),
          loadTerrainMaps mapsFlag processMap order = { processed := [], result := some err }) ∧
    ((mapsFlag = "" ∨ ∀ tok ∈ stringsSplit mapsFlag ',', ∃ m ∈ maps, m.Name = tok) →
      ∃ sel, parseMapsFlag mapsFlag = .ok sel) := by
  constructor
  · rintro ⟨hflag, hbad⟩
    obtain ⟨err, herr⟩ := selectLoop_error _ [] hbad
    have hparse : parseMapsFlag mapsFlag = .error err := by
      simp [parseMapsFlag, hflag, herr]
    exact ⟨err, hparse, fun processMap order => by simp [loadTerrainMaps, hparse]⟩
  · rintro (hflag | hall)
    · exact ⟨none, by simp [parseMapsFlag, hflag]⟩
    · by_cases hflag : mapsFlag = ""
      · exact ⟨none, by simp [parseMapsFlag, hflag]⟩
      · obtain ⟨selected, hsel, _⟩ := selectLoop_ok _ [] hall
        exact ⟨some selected, by simp [parseMapsFlag, hflag, hsel]⟩

/-- The flag `world,atlantis` is refused and `world,eastasia` is accepted. -/
theorem unknown_name_fails_before_any_job_witness :
    (∃ err, parseMapsFlag "world,atlantis" = .error err ∧
        ∀ (processMap : MapItem → GoError) (order : List MapItem),
          loadTerrainMaps "world,atlantis" processMap order =
            { processed := [], result := some err }) ∧
    (∃ sel, parseMapsFlag "world,eastasia" = .ok sel) :=
  ⟨(unknown_name_fails_before_any_job "world,atlantis").1
      ⟨by decide, "atlantis", by decide, by decide⟩,
   (unknown_name_fails_before_any_job "world,eastasia").2 (Or.inr (by decide))⟩

/-- C2 (as stated, refuted): requesting the single name `giantworldmap` does
not launch one job only, it launches the job of the production entry and the
job of the test entry of that name. -/
theorem single_name_may_launch_two_jobs :
    ¬ ∀ m ∈ maps, ∀ sel, parseMapsFlag m.Name = .ok sel → launched sel = [m] := by
  intro h
  have h1 := h { Name := "giantworldmap" } (by decide) (some [("giantworldmap", true)]) rfl
  revert h1
  decide

/-- C2 (amended): for a flag that `parseMapsFlag` accepts and any completion
order of the launched jobs, `processMap` is invoked on each entry at most once,
and it is invoked on an entry exactly when the entry is in the registry and the
flag is empty or the entry's name is one of its tokens; when the flag is the
name of a registry entry, that entry is processed and every processed entry
bears that name. -/
theorem working_set_processed_once (mapsFlag : String) (sel : Option (GoMap Bool))
    (processMap : MapItem → GoError) (order : List MapItem)
    (hvalid : parseMapsFlag mapsFlag = .ok sel) (horder : order.Perm (launched sel)) :
    (loadTerrainMaps mapsFlag processMap order).processed.Nodup ∧
    (∀ e, e ∈ (loadTerrainMaps mapsFlag processMap order).processed ↔
      e ∈ maps ∧ (mapsFlag = "" ∨ e.Name ∈ stringsSplit mapsFlag ',')) ∧
    (∀ m ∈ maps, mapsFlag = m.Name →
      m ∈ (loadTerrainMaps mapsFlag processMap order).processed ∧
      ∀ e ∈ (loadTerrainMaps mapsFlag processMap order).processed, e.Name = m.Name) := by
  have hproc : (loadTerrainMaps mapsFlag processMap order).processed = order := by
    simp [loadTerrainMaps, hvalid]
  rw [hproc]
  have hmem : ∀ e, e ∈ order ↔
      e ∈ maps ∧ (mapsFlag = "" ∨ e.Name ∈ stringsSplit mapsFlag ',') := by
    intro e
    rw [horder.mem_iff, mem_launched]
    rcases parseMapsFlag_ok mapsFlag sel hvalid with ⟨hflag, hsel⟩ | ⟨hflag, selected, hsel, hk⟩
    · subst hsel
      simp [skipped, hflag]
    · subst hsel
      have : skipped (some selected) e = false ↔ e.Name ∈ stringsSplit mapsFlag ',' := by
        rw [← hk]
        simp [skipped]
      rw [this]
      simp [hflag]
  refine ⟨horder.nodup_iff.mpr (launched_nodup sel), hmem, ?_⟩
  intro m hm hflag
  obtain ⟨hne, hsplit⟩ := stringsSplit_registry_name m hm
  constructor
  · rw [hmem]
    exact ⟨hm, Or.inr (by rw [hflag, hsplit]; exact List.mem_singleton_self _)⟩
  · intro e he
    rcases (hmem e).mp he with ⟨_, h | h⟩
    · exact absurd (hflag ▸ h) hne
    · rw [hflag, hsplit] at h
      exact List.mem_singleton.mp h

/-- The flag `world,world`: the one job of `world` runs once. -/
theorem working_set_processed_once_witness :
    (loadTerrainMaps "world,world" (fun _ => none) [{ Name := "world" }]).processed.Nodup ∧
    ({ Name := "world" } : MapItem) ∈
      (loadTerrainMaps "world,world" (fun _ => none) [{ Name := "world" }]).processed :=
  have h := working_set_processed_once "world,world" (some [("world", true)]) (fun _ => none)
    [{ Name := "world" }] rfl (by decide)
  ⟨h.1, (h.2.1 _).mpr ⟨by decide, Or.inr (by decide)⟩⟩

/-- C3: for a flag that `parseMapsFlag` accepts, any outcomes of the jobs and
any order in which the launched jobs complete, `processMap` runs on every
launched entry (the launched entries do not depend on the outcomes), the run
returns `nil` exactly when every launched job returned `nil`, and an error it
returns is the error of one of the launched jobs. -/
theorem job_failures_are_isolated (mapsFlag : String) (sel : Option (GoMap Bool))
    (processMap : MapItem → GoError) (order : List MapItem)
    (hvalid : parseMapsFlag mapsFlag = .ok sel) (horder : order.Perm (launched sel)) :
    (loadTerrainMaps mapsFlag processMap order).processed.Perm (launched sel) ∧
    ((loadTerrainMaps mapsFlag processMap order).result = none ↔
      ∀ e ∈ launched sel, processMap e = none) ∧
    (∀ err, (loadTerrainMaps mapsFlag processMap order).result = some err →
      ∃ e ∈ launched sel, processMap e = some err) := by
  have hrun : loadTerrainMaps mapsFlag processMap order =
      { processed := order, result := drain (sendErrors processMap order) } := by
    simp [loadTerrainMaps, hvalid]
  rw [hrun]
  refine ⟨horder, ?_, ?_⟩
  · simp only [drain_sendErrors_none]
    exact ⟨fun h e he => h e (horder.mem_iff.mpr he), fun h e he => h e (horder.mem_iff.mp he)⟩
  · intro err herr
    obtain ⟨e, he, hpe⟩ := drain_sendErrors_some processMap order err herr
    exact ⟨e, horder.mem_iff.mp he, hpe⟩

/-- The flag `world,plains` with the job of `plains` finishing first and
failing: the run returns that failure. -/
theorem job_failures_are_isolated_witness :
    (loadTerrainMaps "world,plains"
      (fun e => if e.IsTest then some (.ext "disk full") else none)
      [{ Name := "plains", IsTest := true }, { Name := "world" }]).result
      = some (.ext "disk full") ∧
    ∃ e ∈ launched (some [("world", true), ("plains", true)]),
      (fun e : MapItem => if e.IsTest then some (Error.ext "disk full") else none) e
        = some (.ext "disk full") :=
  ⟨by decide,
   (job_failures_are_isolated "world,plains" (some [("world", true), ("plains", true)])
      (fun e => if e.IsTest then some (.ext "disk full") else none)
      [{ Name := "plains", IsTest := true }, { Name := "world" }]
      rfl (by decide)).2.2 (.ext "disk full") (by decide)⟩

/-! ## Splitting and joining -/

theorem splitChars_ne_nil (sep : Char) (l : List Char) : splitChars sep l ≠ [] := by
  induction l with
  | nil => simp [splitChars]
  | cons c cs ih =>
    unfold splitChars
    split
    · simp
    · split <;> simp

theorem splitChars_append_sep (sep : Char) (a b : List Char) :
    splitChars sep (a ++ sep :: b) = splitChars sep a ++ splitChars sep b := by
  induction a with
  | nil => simp [splitChars]
  | cons c cs ih =>
    by_cases hc : c = sep
    · simp [splitChars, hc, ih]
    · have hne := splitChars_ne_nil sep cs
      cases hs : splitChars sep cs with
      | nil => exact absurd hs hne
      | cons piece pieces =>
        simp [splitChars, hc, ih, hs]

theorem splitChars_of_not_mem (sep : Char) (l : List Char) (h : sep ∉ l) :
    splitChars sep l = [l] := by
  induction l with
  | nil => simp [splitChars]
  | cons c cs ih =>
    have hc : c ≠ sep := fun hc => h (by simp [hc])
    have hcs : sep ∉ cs := fun hcs => h (List.mem_cons_of_mem _ hcs)
    simp [splitChars, hc, ih hcs]

theorem splitChars_not_mem (sep : Char) (l : List Char) :
    ∀ piece ∈ splitChars sep l, sep ∉ piece := by
  induction l with
  | nil => simp [splitChars]
  | cons c cs ih =>
    by_cases hc : c = sep
    · intro piece hp
      simp only [splitChars, hc, if_true, List.mem_cons] at hp
      rcases hp with rfl | hp
      · simp
      · exact ih piece hp
    · have hne := splitChars_ne_nil sep cs
      cases hs : splitChars sep cs with
      | nil => exact absurd hs hne
      | cons p ps =>
        rw [hs] at ih
        intro piece hp
        simp only [splitChars, hc, if_false, hs, List.mem_cons] at hp
        rcases hp with rfl | hp
        · intro hmem
          rcases List.mem_cons.mp hmem with h1 | h1
          · exact hc h1.symm
          · exact ih p (List.mem_cons_self _ _) h1
        · exact ih piece (List.mem_cons_of_mem _ hp)

theorem joinSlash_cons (e : List Char) (rest : List (List Char)) (h : rest ≠ []) :
    joinSlash (e :: rest) = e ++ '/' :: joinSlash rest := by
  cases rest with
  | nil => exact absurd rfl h
  | cons x xs => rfl

theorem joinSlash_append (l m : List (List Char)) (hl : l ≠ []) (hm : m ≠ []) :
    joinSlash (l ++ m) = joinSlash l ++ '/' :: joinSlash m := by
  induction l with
  | nil => exact absurd rfl hl
  | cons e rest ih =>
    cases rest with
    | nil => simp [joinSlash_cons _ _ hm, joinSlash]
    | cons x xs =>
      have h1 : (x :: xs) ++ m ≠ [] := by simp
      rw [List.cons_append, joinSlash_cons e _ h1, ih (by simp),
        joinSlash_cons e (x :: xs) (by simp)]
      simp

theorem splitChars_joinSlash (l : List (List Char)) (hl : l ≠ [])
    (h : ∀ e ∈ l, '/' ∉ e) : splitChars '/' (joinSlash l) = l := by
  induction l with
  | nil => exact absurd rfl hl
  | cons e rest ih =>
    have he : '/' ∉ e := h e (List.mem_cons_self _ _)
    cases rest with
    | nil => simpa [joinSlash] using splitChars_of_not_mem '/' e he
    | cons x xs =>
      rw [joinSlash_cons _ _ (by simp), splitChars_append_sep, splitChars_of_not_mem _ _ he,
        ih (by simp) (fun e' he' => h e' (List.mem_cons_of_mem _ he'))]
      rfl

theorem joinSlash_injective (l m : List (List Char)) (hl : l ≠ []) (hm : m ≠ [])
    (h1 : ∀ e ∈ l, '/' ∉ e) (h2 : ∀ e ∈ m, '/' ∉ e) (h : joinSlash l = joinSlash m) :
    l = m := by
  rw [← splitChars_joinSlash l hl h1, ← splitChars_joinSlash m hm h2, h]

/-! ## Cleaning a path -/

theorem cleanStep_ordinary (rooted : Bool) (st : CleanState) (e : List Char)
    (h : Ordinary e) : cleanStep rooted st e = { st with stack := e :: st.stack } := by
  obtain ⟨h1, h2, h3, _⟩ := h
  simp [cleanStep, h1, h2, h3]

theorem cleanStep_good (rooted : Bool) (st : CleanState) (e : List Char)
    (hs : '/' ∉ e) (hg : GoodState rooted st) : GoodState rooted (cleanStep rooted st e) := by
  obtain ⟨hu, ho⟩ := hg
  unfold cleanStep
  split
  · exact ⟨hu, ho⟩
  · rename_i h1
    split
    · cases hst : st.stack with
      | nil =>
        cases rooted with
        | true => simpa [GoodState, hst] using hu
        | false => simp [GoodState, hst]
      | cons top rest =>
        refine ⟨by simpa using hu, fun e' he' => ?_⟩
        exact ho e' (by rw [hst]; exact List.mem_cons_of_mem _ he')
    · rename_i h2
      refine ⟨by simpa using hu, fun e' he' => ?_⟩
      rcases List.mem_cons.mp he' with rfl | he'
      · exact ⟨fun h => h1 (Or.inl h), fun h => h1 (Or.inr h), h2, hs⟩
      · exact ho e' he'

theorem foldl_cleanStep_good (rooted : Bool) (es : List (List Char)) (st : CleanState)
    (hs : ∀ e ∈ es, '/' ∉ e) (hg : GoodState rooted st) :
    GoodState rooted (es.foldl (cleanStep rooted) st) := by
  induction es generalizing st with
  | nil => exact hg
  | cons e rest ih =>
    exact ih _ (fun e' he' => hs e' (List.mem_cons_of_mem _ he'))
      (cleanStep_good rooted st e (hs e (List.mem_cons_self _ _)) hg)

theorem foldl_cleanStep_ordinary (rooted : Bool) (es : List (List Char)) (st : CleanState)
    (h : ∀ e ∈ es, Ordinary e) :
    es.foldl (cleanStep rooted) st = { ups := st.ups, stack := es.reverse ++ st.stack } := by
  induction es generalizing st with
  | nil => simp
  | cons e rest ih =>
    rw [List.foldl_cons, cleanStep_ordinary rooted st e (h e (List.mem_cons_self _ _)),
      ih _ (fun e' he' => h e' (List.mem_cons_of_mem _ he'))]
    simp

theorem foldl_cleanStep_ups (n k : Nat) :
    (List.replicate n ['.', '.']).foldl (cleanStep false) { ups := k, stack := [] }
      = { ups := k + n, stack := [] } := by
  induction n generalizing k with
  | zero => simp
  | succ n ih =>
    rw [List.replicate_succ, List.foldl_cons]
    have : cleanStep false { ups := k, stack := [] } ['.', '.']
        = { ups := k + 1, stack := [] } := by
      simp [cleanStep]
    rw [this, ih]
    simp [Nat.add_assoc, Nat.add_comm 1 n]

theorem renderPath_push (rooted : Bool) (st : CleanState) (xs : List (List Char))
    (hxs : xs ≠ []) :
    renderPath rooted { ups := st.ups, stack := xs ++ st.stack }
      = dirPrefix rooted st ++ joinSlash xs.reverse := by
  have hrev : xs.reverse ≠ [] := by simpa using hxs
  unfold renderPath dirPrefix
  simp only [List.reverse_append, ← List.append_assoc]
  by_cases hL : List.replicate st.ups ['.', '.'] ++ st.stack.reverse = []
  · rw [hL]
    cases rooted <;> simp [hrev]
  · rw [joinSlash_append _ _ hL hrev]
    cases rooted <;> simp [hL, hrev]

theorem head?_joinSlash (e : List Char) (rest : List (List Char)) (he : e ≠ []) :
    (joinSlash (e :: rest)).head? = e.head? := by
  cases e with
  | nil => exact absurd rfl he
  | cons c cs =>
    cases rest with
    | nil => rfl
    | cons x xs => rfl

theorem head?_ne_of_not_mem (c : Char) (e : List Char) (h : c ∉ e) : e.head? ≠ some c := by
  cases e with
  | nil => simp
  | cons x xs =>
    intro hx
    simp only [List.head?_cons, Option.some.injEq] at hx
    exact h (by simp [hx])

/-- Cleaning is idempotent: the rendering of a good state is not empty, is
rooted exactly when the state was built for a rooted path, and is cleaned back
to the same state. -/
theorem clean_render (rooted : Bool) (st : CleanState) (hg : GoodState rooted st) :
    renderPath rooted st ≠ [] ∧
    decide ((renderPath rooted st).head? = some '/') = rooted ∧
    (splitChars '/' (renderPath rooted st)).foldl (cleanStep rooted) { ups := 0, stack := [] }
      = st := by
  obtain ⟨ups, stack⟩ := st
  obtain ⟨hu, ho⟩ := hg
  simp only at hu ho
  have hord : ∀ e ∈ stack.reverse, Ordinary e := fun e he => ho e (List.mem_reverse.mp he)
  cases rooted with
  | true =>
    have hups : ups = 0 := hu rfl
    subst hups
    have hD : renderPath true { ups := 0, stack := stack } = [] ++ '/' :: joinSlash stack.reverse := by
      simp [renderPath]
    rw [hD]
    refine ⟨by simp, by simp, ?_⟩
    rw [splitChars_append_sep]
    by_cases hL : stack.reverse = []
    · have hs : stack = [] := by simpa using hL
      subst hs
      simp [joinSlash, splitChars, cleanStep]
    · rw [splitChars_joinSlash _ hL (fun e he => (hord e he).2.2.2), List.foldl_append]
      have h0 : (splitChars '/' []).foldl (cleanStep true) { ups := 0, stack := [] }
          = { ups := 0, stack := [] } := by
        simp [splitChars, cleanStep]
      rw [h0, foldl_cleanStep_ordinary _ _ _ hord]
      simp
  | false =>
    by_cases hL : List.replicate ups ['.', '.'] ++ stack.reverse = []
    · have h1 : ups = 0 := by
        cases ups with
        | zero => rfl
        | succ n => simp [List.replicate_succ] at hL
      have h2 : stack = [] := by
        subst h1
        simpa using hL
      subst h1 h2
      simp [renderPath, splitChars, cleanStep]
    · have hD : renderPath false { ups := ups, stack := stack }
          = joinSlash (List.replicate ups ['.', '.'] ++ stack.reverse) := by
        simp only [renderPath]
        rw [if_neg hL]
        simp
      have hfree : ∀ e ∈ List.replicate ups ['.', '.'] ++ stack.reverse, e ≠ [] ∧ '/' ∉ e := by
        intro e he
        rcases List.mem_append.mp he with h | h
        · rw [(List.mem_replicate.mp h).2]
          exact ⟨by simp, by decide⟩
        · exact ⟨(hord e h).1, (hord e h).2.2.2⟩
      rw [hD]
      cases hl : List.replicate ups ['.', '.'] ++ stack.reverse with
      | nil => exact absurd hl hL
      | cons e rest =>
        have he := hfree e (by rw [hl]; exact List.mem_cons_self _ _)
        refine ⟨?_, ?_, ?_⟩
        · intro hnil
          have := head?_joinSlash e rest he.1
          rw [hnil] at this
          cases e with
          | nil => exact he.1 rfl
          | cons c cs => simp at this
        · rw [head?_joinSlash e rest he.1]
          simpa using head?_ne_of_not_mem '/' e he.2
        · rw [← hl, splitChars_joinSlash _ hL (fun e he => (hfree e he).2), List.foldl_append,
            foldl_cleanStep_ups, foldl_cleanStep_ordinary _ _ _ hord]
          simp
/-! ## `filepath.Join` -/

theorem string_ne_empty (s : String) (h : s.data ≠ []) : s ≠ "" := by
  intro hs
  apply h
  rw [hs]

/-- The join of a first element with further elements, none of them empty or
holding a separator: the first element is cleaned and the further ones are then
processed in turn. -/
theorem filepathJoin_eq (d : String) (es : List String) (hes : es ≠ [])
    (h : ∀ e ∈ es, e.data ≠ [] ∧ '/' ∉ e.data) :
    filepathJoin (d :: es) =
      String.mk (renderPath (decide (d.data.head? = some '/'))
        ((es.map String.data).foldl (cleanStep (decide (d.data.head? = some '/')))
          ((splitChars '/' d.data).foldl (cleanStep (decide (d.data.head? = some '/')))
            { ups := 0, stack := [] }))) := by
  have hfree : ∀ e ∈ es.map String.data, '/' ∉ e := by
    intro e he
    obtain ⟨x, hx, rfl⟩ := List.mem_map.mp he
    exact (h x hx).2
  have hmap : es.map String.data ≠ [] := by simpa using hes
  by_cases hd : d = ""
  · subst hd
    cases es with
    | nil => exact absurd rfl hes
    | cons e rest =>
      have he := h e (List.mem_cons_self _ _)
      have hne : e ≠ "" := string_ne_empty e he.1
      have hroot : decide ((joinSlash ((e :: rest).map String.data)).head? = some '/') = false := by
        rw [List.map_cons, head?_joinSlash _ _ he.1]
        simpa using head?_ne_of_not_mem '/' e.data he.2
      have h0 : decide (("" : String).data.head? = some '/') = false := by decide
      rw [h0]
      simp only [filepathJoin, if_true, if_neg hne, cleanChars]
      rw [hroot, splitChars_joinSlash _ hmap hfree]
      simp [splitChars, cleanStep]
  · have hdd : d.data ≠ [] := by
      intro hnil
      apply hd
      cases d
      simp_all
    have hjoin : joinSlash ((d :: es).map String.data)
        = d.data ++ '/' :: joinSlash (es.map String.data) := by
      rw [List.map_cons, joinSlash_cons _ _ hmap]
    have hhead : (d.data ++ '/' :: joinSlash (es.map String.data)).head? = d.data.head? := by
      cases hdata : d.data with
      | nil => exact absurd hdata hdd
      | cons c cs => rfl
    simp only [filepathJoin, if_neg hd, cleanChars]
    rw [hjoin, hhead, splitChars_append_sep, splitChars_joinSlash _ hmap hfree, List.foldl_append]

/-- Joining one ordinary element onto any directory appends it to a prefix that
depends on the directory only. -/
theorem filepathJoin_ordinary (d : String) :
    ∃ pre : List Char, ∀ x : String, Ordinary x.data →
      filepathJoin [d, x] = String.mk (pre ++ x.data) := by
  refine ⟨dirPrefix (decide (d.data.head? = some '/'))
    ((splitChars '/' d.data).foldl (cleanStep (decide (d.data.head? = some '/')))
      { ups := 0, stack := [] }), fun x hx => ?_⟩
  rw [filepathJoin_eq d [x] (by simp) (by
    intro e he
    rw [List.mem_singleton.mp he]
    exact ⟨hx.1, hx.2.2.2⟩)]
  simp only [List.map_cons, List.map_nil, List.foldl_cons, List.foldl_nil]
  rw [cleanStep_ordinary _ _ _ hx]
  have := renderPath_push (decide (d.data.head? = some '/'))
    ((splitChars '/' d.data).foldl (cleanStep (decide (d.data.head? = some '/')))
      { ups := 0, stack := [] }) [x.data] (by simp)
  simp only [List.singleton_append, List.reverse_singleton, joinSlash] at this
  rw [this]

/-- Two ordinary file names joined onto the same directory give the same path
only when they are the same name. -/
theorem filepathJoin_file_injective (d x y : String) (hx : Ordinary x.data)
    (hy : Ordinary y.data) (h : filepathJoin [d, x] = filepathJoin [d, y]) : x = y := by
  obtain ⟨pre, hpre⟩ := filepathJoin_ordinary d
  rw [hpre x hx, hpre y hy] at h
  have h1 : pre ++ x.data = pre ++ y.data := congrArg String.data h
  have h2 : x.data = y.data := List.append_cancel_left h1
  cases x
  cases y
  simp_all

/-- Joining an ordinary element onto a rendered good state pushes the element
onto the state. -/
theorem filepathJoin_rendered (rooted : Bool) (st : CleanState) (hg : GoodState rooted st)
    (x : String) (hx : Ordinary x.data) :
    filepathJoin [String.mk (renderPath rooted st), x]
      = String.mk (renderPath rooted { ups := st.ups, stack := x.data :: st.stack }) := by
  obtain ⟨_, hroot, hfold⟩ := clean_render rooted st hg
  rw [filepathJoin_eq _ [x] (by simp) (by
    intro e he
    rw [List.mem_singleton.mp he]
    exact ⟨hx.1, hx.2.2.2⟩)]
  simp only [List.map_cons, List.map_nil, List.foldl_cons, List.foldl_nil]
  rw [hroot, hfold, cleanStep_ordinary _ _ _ hx]

theorem goodState_push (rooted : Bool) (st : CleanState) (hg : GoodState rooted st)
    (x : List Char) (hx : Ordinary x) :
    GoodState rooted { ups := st.ups, stack := x :: st.stack } := by
  refine ⟨hg.1, fun e he => ?_⟩
  rcases List.mem_cons.mp he with rfl | he
  · exact hx
  · exact hg.2 e he
/-! ## The asset locator -/

theorem goodState_push_many (rooted : Bool) (st : CleanState) (hg : GoodState rooted st)
    (xs : List (List Char)) (hxs : ∀ x ∈ xs, Ordinary x) :
    GoodState rooted { ups := st.ups, stack := xs ++ st.stack } := by
  refine ⟨hg.1, fun e he => ?_⟩
  rcases List.mem_append.mp he with he | he
  · exact hxs e he
  · exact hg.2 e he

theorem outputMapDir_ok (env : Env) (cwd : String) (hcwd : env.getwd = .ok cwd)
    (isTest : Bool) :
    outputMapDir env isTest = .ok (filepathJoin (cwd :: ".." :: outputRoot isTest)) := by
  cases isTest <;> simp [outputMapDir, hcwd, outputRoot]

theorem inputMapDir_ok (env : Env) (cwd : String) (hcwd : env.getwd = .ok cwd)
    (isTest : Bool) :
    inputMapDir env isTest = .ok (filepathJoin (cwd :: inputRoot isTest)) := by
  cases isTest <;> simp [inputMapDir, hcwd, inputRoot]

theorem outputRoot_ordinary (isTest : Bool) :
    ∀ x ∈ (outputRoot isTest).map String.data, Ordinary x := by
  cases isTest <;> simp [outputRoot, Ordinary]

theorem inputRoot_ordinary (isTest : Bool) :
    ∀ x ∈ (inputRoot isTest).map String.data, Ordinary x := by
  cases isTest <;> simp [inputRoot, Ordinary]

/-- Under one working directory the paths below the output roots share a
prefix: a root is that prefix followed by its elements, and so are the
directory of a map and a file in it. -/
theorem output_paths (cwd : String) :
    ∃ pre : List Char, ∀ isTest : Bool,
      filepathJoin (cwd :: ".." :: outputRoot isTest)
        = String.mk (pre ++ joinSlash ((outputRoot isTest).map String.data)) ∧
      ∀ name : String, Ordinary name.data →
        filepathJoin [filepathJoin (cwd :: ".." :: outputRoot isTest), name]
          = String.mk (pre ++ joinSlash ((outputRoot isTest).map String.data ++ [name.data])) ∧
        ∀ file : String, Ordinary file.data →
          filepathJoin [filepathJoin [filepathJoin (cwd :: ".." :: outputRoot isTest), name], file]
            = String.mk (pre ++
                joinSlash ((outputRoot isTest).map String.data ++ [name.data, file.data])) := by
  let r : Bool := decide (cwd.data.head? = some '/')
  let s0 : CleanState := (splitChars '/' cwd.data).foldl (cleanStep r) { ups := 0, stack := [] }
  let s1 : CleanState := cleanStep r s0 ['.', '.']
  have hg0 : GoodState r s0 :=
    foldl_cleanStep_good r _ _ (splitChars_not_mem '/' cwd.data) ⟨fun _ => rfl, by simp⟩
  have hg1 : GoodState r s1 := cleanStep_good r s0 _ (by decide) hg0
  refine ⟨dirPrefix r s1, fun isTest => ?_⟩
  have hord := outputRoot_ordinary isTest
  have hne : (outputRoot isTest).map String.data ≠ [] := by cases isTest <;> simp [outputRoot]
  have hbase : filepathJoin (cwd :: ".." :: outputRoot isTest)
      = String.mk (renderPath r
          { ups := s1.ups, stack := ((outputRoot isTest).map String.data).reverse ++ s1.stack }) := by
    rw [filepathJoin_eq cwd (".." :: outputRoot isTest) (by simp) (by
      intro e he
      rcases List.mem_cons.mp he with rfl | he
      · exact ⟨by decide, by decide⟩
      · have := hord e.data (List.mem_map_of_mem _ he)
        exact ⟨this.1, this.2.2.2⟩)]
    rw [List.map_cons, List.foldl_cons]
    show String.mk (renderPath r (((outputRoot isTest).map String.data).foldl (cleanStep r) s1)) = _
    rw [foldl_cleanStep_ordinary r _ s1 hord]
  have hgb : GoodState r
      { ups := s1.ups, stack := ((outputRoot isTest).map String.data).reverse ++ s1.stack } :=
    goodState_push_many r s1 hg1 _ (fun x hx => hord x (List.mem_reverse.mp hx))
  refine ⟨?_, fun name hname => ?_⟩
  · rw [hbase, renderPath_push r s1 _ (by simpa using hne)]
    simp
  · have hdir : filepathJoin [filepathJoin (cwd :: ".." :: outputRoot isTest), name]
        = String.mk (renderPath r (CleanState.mk s1.ups
            ((name.data :: ((outputRoot isTest).map String.data).reverse) ++ s1.stack))) := by
      rw [hbase, filepathJoin_rendered r _ hgb name hname]
      rfl
    have hgd : GoodState r (CleanState.mk s1.ups
        ((name.data :: ((outputRoot isTest).map String.data).reverse) ++ s1.stack)) :=
      goodState_push r _ hgb name.data hname
    refine ⟨?_, fun file hfile => ?_⟩
    · rw [hdir, renderPath_push r s1 _ (by simp)]
      simp
    · rw [hdir, filepathJoin_rendered r _ hgd file hfile]
      have := renderPath_push r s1
        (file.data :: name.data :: ((outputRoot isTest).map String.data).reverse) (by simp)
      simp only [List.cons_append] at this ⊢
      rw [this]
      simp

/-- Under one working directory the two input roots are a common prefix
followed by their elements. -/
theorem input_paths (cwd : String) :
    ∃ pre : List Char, ∀ isTest : Bool,
      filepathJoin (cwd :: inputRoot isTest)
        = String.mk (pre ++ joinSlash ((inputRoot isTest).map String.data)) := by
  refine ⟨dirPrefix (decide (cwd.data.head? = some '/'))
    ((splitChars '/' cwd.data).foldl (cleanStep (decide (cwd.data.head? = some '/')))
      { ups := 0, stack := [] }), fun isTest => ?_⟩
  have hord := inputRoot_ordinary isTest
  have hne : (inputRoot isTest).map String.data ≠ [] := by cases isTest <;> simp [inputRoot]
  rw [filepathJoin_eq cwd (inputRoot isTest) (by cases isTest <;> simp [inputRoot]) (by
    intro e he
    have := hord e.data (List.mem_map_of_mem _ he)
    exact ⟨this.1, this.2.2.2⟩)]
  rw [foldl_cleanStep_ordinary _ _ _ hord, renderPath_push _ _ _ (by simpa using hne)]
  simp

/-- Two paths with the same prefix whose remainders are joined from different
lists of separator-free elements are different. -/
theorem mk_prefix_joinSlash_ne (pre : List Char) (l m : List (List Char))
    (hl : l ≠ []) (hm : m ≠ []) (h1 : ∀ e ∈ l, '/' ∉ e) (h2 : ∀ e ∈ m, '/' ∉ e)
    (hlm : l ≠ m) : String.mk (pre ++ joinSlash l) ≠ String.mk (pre ++ joinSlash m) := by
  intro h
  have h3 : pre ++ joinSlash l = pre ++ joinSlash m := congrArg String.data h
  exact hlm (joinSlash_injective l m hl hm h1 h2 (List.append_cancel_left h3))

theorem registry_names_ordinary : ∀ m ∈ maps, Ordinary m.Name.data := by
  unfold Ordinary
  decide

theorem outputFiles_ordinary : ∀ f ∈ outputFiles, Ordinary f.data := by
  unfold Ordinary
  decide
theorem string_eq_of_data (x y : String) (h : x.data = y.data) : x = y := by
  cases x
  cases y
  simp_all

theorem outputRoot_name_ne (a b : MapItem) (hab : a ≠ b) (x y : List (List Char)) :
    (outputRoot a.IsTest).map String.data ++ a.Name.data :: x
      ≠ (outputRoot b.IsTest).map String.data ++ b.Name.data :: y := by
  obtain ⟨an, at1⟩ := a
  obtain ⟨bn, bt⟩ := b
  intro h
  cases at1 <;> cases bt
  · have h1 : an.data = bn.data := by
      simp only [outputRoot] at h
      simpa using congrArg (fun l => l.get? 2) h
    exact hab (by rw [string_eq_of_data an bn h1])
  · have h1 : some "resources".data = some "tests".data := congrArg List.head? h
    exact absurd h1 (by decide)
  · have h1 : some "tests".data = some "resources".data := congrArg List.head? h
    exact absurd h1 (by decide)
  · have h1 : an.data = bn.data := by
      simp only [outputRoot] at h
      simpa using congrArg (fun l => l.get? 3) h
    exact hab (by rw [string_eq_of_data an bn h1])

/-- C7: under any working directory the output directories
`filepath.Join(outputMapDir(IsTest), Name)` of two different entries of the
registry are different paths, and so are any two output files in them; the test
and the production output roots differ, and so do the two input roots. -/
theorem output_dirs_disjoint (env : Env) (cwd : String) (hcwd : env.getwd = .ok cwd) :
    (∀ a ∈ maps, ∀ b ∈ maps, a ≠ b →
      ∃ da db, mapOutputDir env a = .ok da ∧ mapOutputDir env b = .ok db ∧ da ≠ db ∧
        ∀ f ∈ outputFiles, ∀ g ∈ outputFiles, filepathJoin [da, f] ≠ filepathJoin [db, g]) ∧
    (∃ t p, outputMapDir env true = .ok t ∧ outputMapDir env false = .ok p ∧ t ≠ p) ∧
    (∃ t p, inputMapDir env true = .ok t ∧ inputMapDir env false = .ok p ∧ t ≠ p) := by
  obtain ⟨pre, hpre⟩ := output_paths cwd
  obtain ⟨ipre, hipre⟩ := input_paths cwd
  have hfree : ∀ (t : Bool) (xs : List (List Char)), (∀ x ∈ xs, Ordinary x) →
      ∀ e ∈ (outputRoot t).map String.data ++ xs, '/' ∉ e := by
    intro t xs hxs e he
    rcases List.mem_append.mp he with he | he
    · exact (outputRoot_ordinary t e he).2.2.2
    · exact (hxs e he).2.2.2
  refine ⟨?_, ?_, ?_⟩
  · intro a ha b hb hab
    have hna := registry_names_ordinary a ha
    have hnb := registry_names_ordinary b hb
    refine ⟨filepathJoin [filepathJoin (cwd :: ".." :: outputRoot a.IsTest), a.Name],
      filepathJoin [filepathJoin (cwd :: ".." :: outputRoot b.IsTest), b.Name],
      by simp [mapOutputDir, outputMapDir_ok env cwd hcwd],
      by simp [mapOutputDir, outputMapDir_ok env cwd hcwd], ?_, ?_⟩
    · rw [((hpre a.IsTest).2 a.Name hna).1, ((hpre b.IsTest).2 b.Name hnb).1]
      exact mk_prefix_joinSlash_ne pre _ _ (by simp) (by simp)
        (hfree _ _ (by simpa using hna)) (hfree _ _ (by simpa using hnb))
        (outputRoot_name_ne a b hab [] [])
    · intro f hf g hg
      have hof := outputFiles_ordinary f hf
      have hog := outputFiles_ordinary g hg
      rw [((hpre a.IsTest).2 a.Name hna).2 f hof, ((hpre b.IsTest).2 b.Name hnb).2 g hog]
      exact mk_prefix_joinSlash_ne pre _ _ (by simp) (by simp)
        (hfree _ _ (by simpa using ⟨hna, hof⟩)) (hfree _ _ (by simpa using ⟨hnb, hog⟩))
        (outputRoot_name_ne a b hab [f.data] [g.data])
  · refine ⟨_, _, outputMapDir_ok env cwd hcwd true, outputMapDir_ok env cwd hcwd false, ?_⟩
    rw [(hpre true).1, (hpre false).1]
    exact mk_prefix_joinSlash_ne pre _ _ (by simp [outputRoot]) (by simp [outputRoot])
      (fun e he => (outputRoot_ordinary true e he).2.2.2)
      (fun e he => (outputRoot_ordinary false e he).2.2.2) (by simp [outputRoot])
  · refine ⟨_, _, inputMapDir_ok env cwd hcwd true, inputMapDir_ok env cwd hcwd false, ?_⟩
    rw [hipre true, hipre false]
    exact mk_prefix_joinSlash_ne ipre _ _ (by simp [inputRoot]) (by simp [inputRoot])
      (fun e he => (inputRoot_ordinary true e he).2.2.2)
      (fun e he => (inputRoot_ordinary false e he).2.2.2) (by simp [inputRoot])

/-- In the working directory `/repo/map-generator` the output roots are
`/repo/tests/testdata/maps` and `/repo/resources/maps`. -/
theorem output_dirs_disjoint_witness :
    ∃ t p, outputMapDir sampleEnv true = .ok t ∧ outputMapDir sampleEnv false = .ok p ∧ t ≠ p :=
  (output_dirs_disjoint sampleEnv "/repo/map-generator" rfl).2.1
/-! ## The per-map build job -/

theorem generatorCalls_writeOutputs (env : Env) (name mapDir : String) (result : MapResult)
    (manifest : Manifest) :
    generatorCalls (writeOutputs env name mapDir result manifest).1 = [] := by
  unfold writeOutputs
  simp only []
  repeat' split
  all_goals simp [generatorCalls]

/-- C8: when the working directory is known, image.png and info.json are read
and info.json is accepted by the decoder, `processMap` calls the generator
exactly once, with the bytes of image.png, with `RemoveSmall` the negation of
`isTest`, and with the name of the map; this holds for every name and flag,
those of the registry entries among them. -/
theorem generator_called_once (env : Env) (name : String) (isTest : Bool)
    (outDir inDir : String) (img info : Bytes) (manifest : Option Manifest)
    (hout : outputMapDir env isTest = .ok outDir)
    (hin : inputMapDir env isTest = .ok inDir)
    (himg : env.readFile (filepathJoin [inDir, name, "image.png"]) = .ok img)
    (hinfo : env.readFile (filepathJoin [inDir, name, "info.json"]) = .ok info)
    (hparse : env.unmarshal info = .ok manifest) :
    generatorCalls (processMap env name isTest).1
      = [{ ImageBuffer := img, RemoveSmall := !isTest, Name := name }] := by
  simp only [processMap, hout, hin, himg, hinfo, hparse]
  cases hgen : env.generateMap { ImageBuffer := img, RemoveSmall := !isTest, Name := name } with
  | error err => simp [generatorCalls]
  | ok result =>
    cases manifest with
    | none => simp [generatorCalls]
    | some m =>
      have h := generatorCalls_writeOutputs env name (filepathJoin [outDir, name]) result
        (mergeSummaries m result)
      simp only [generatorCalls] at h ⊢
      simp [List.filterMap_append, h]

/-- The production map `world` of `sampleEnv`: one call, small islands removed. -/
theorem generator_called_once_witness :
    generatorCalls (processMap sampleEnv "world" false).1
      = [{ ImageBuffer := [137, 80, 78, 71], RemoveSmall := true, Name := "world" }] :=
  generator_called_once sampleEnv "world" false "/repo/resources/maps"
    "/repo/map-generator/assets/maps" [137, 80, 78, 71] [123, 125]
    (some [("name", .decoded { token := "World" }), ("map", .decoded { token := "stale" })])
    rfl rfl rfl rfl rfl

/-- C10 (the failing input): with an info.json that holds `null`, which the
decoder accepts leaving the manifest nil, `processMap` reads both inputs, runs
the generator and then aborts with a run-time panic at `manifest["map"] = ..`;
it does not return. -/
theorem processMap_null_info_panics :
    processMap nullInfoEnv "world" false =
      ([.readFile "/repo/map-generator/assets/maps/world/image.png",
        .readFile "/repo/map-generator/assets/maps/world/info.json",
        .unmarshal [123, 125],
        .generateMap { ImageBuffer := [137, 80, 78, 71], RemoveSmall := true, Name := "world" }],
       .panicked "assignment to entry in nil map") := by
  decide
theorem get?_mergeSummaries_other (m : Manifest) (r : MapResult) (k : String)
    (h1 : k ≠ "map") (h2 : k ≠ "map4x") (h3 : k ≠ "map16x") :
    GoMap.get? (mergeSummaries m r) k = GoMap.get? m k := by
  unfold mergeSummaries
  rw [GoMap.get?_set, GoMap.get?_set, GoMap.get?_set]
  simp [Ne.symm h1, Ne.symm h2, Ne.symm h3]

theorem get?_mergeSummaries_summary (m : Manifest) (r : MapResult) :
    GoMap.get? (mergeSummaries m r) "map" = some (summaryOf r.Map) ∧
    GoMap.get? (mergeSummaries m r) "map4x" = some (summaryOf r.Map4x) ∧
    GoMap.get? (mergeSummaries m r) "map16x" = some (summaryOf r.Map16x) := by
  unfold mergeSummaries
  refine ⟨?_, ?_, ?_⟩ <;>
    · rw [GoMap.get?_set, GoMap.get?_set, GoMap.get?_set]
      simp

theorem serialised_of_isInput (trace : List Event) (h : ∀ e ∈ trace, e.isInput = true) :
    serialised trace = [] ∧ writes trace = [] := by
  induction trace with
  | nil => simp [serialised, writes]
  | cons e rest ih =>
    have he := h e (List.mem_cons_self _ _)
    have hr := ih (fun e' he' => h e' (List.mem_cons_of_mem _ he'))
    unfold serialised writes at hr ⊢
    cases e <;> simp_all [Event.isInput]

/-- How a call of `processMap` goes: it ends before the output steps, having
made input calls only and not returning `nil`, or all inputs were obtained, the
manifest is not nil, and the call goes on with the output steps on the merged
manifest. -/
theorem processMap_inv (env : Env) (name : String) (isTest : Bool) :
    ((∀ e ∈ (processMap env name isTest).1, e.isInput = true) ∧
      (processMap env name isTest).2 ≠ .returned none) ∨
    ∃ (outDir inDir : String) (img info : Bytes) (original : Manifest) (result : MapResult),
      outputMapDir env isTest = .ok outDir ∧ inputMapDir env isTest = .ok inDir ∧
      env.readFile (filepathJoin [inDir, name, "image.png"]) = .ok img ∧
      env.readFile (filepathJoin [inDir, name, "info.json"]) = .ok info ∧
      env.unmarshal info = .ok (some original) ∧
      env.generateMap { ImageBuffer := img, RemoveSmall := !isTest, Name := name } = .ok result ∧
      processMap env name isTest =
        ([.readFile (filepathJoin [inDir, name, "image.png"]),
          .readFile (filepathJoin [inDir, name, "info.json"]),
          .unmarshal info,
          .generateMap { ImageBuffer := img, RemoveSmall := !isTest, Name := name }]
          ++ (writeOutputs env name (filepathJoin [outDir, name]) result
                (mergeSummaries original result)).1,
         (writeOutputs env name (filepathJoin [outDir, name]) result
                (mergeSummaries original result)).2) := by
  cases hout : outputMapDir env isTest with
  | error err => left; simp [processMap, hout]
  | ok outDir =>
  cases hin : inputMapDir env isTest with
  | error err => left; simp [processMap, hout, hin]
  | ok inDir =>
  cases himg : env.readFile (filepathJoin [inDir, name, "image.png"]) with
  | error err => left; simp [processMap, hout, hin, himg, Event.isInput]
  | ok img =>
  cases hinfo : env.readFile (filepathJoin [inDir, name, "info.json"]) with
  | error err => left; simp [processMap, hout, hin, himg, hinfo, Event.isInput]
  | ok info =>
  cases hparse : env.unmarshal info with
  | error err => left; simp [processMap, hout, hin, himg, hinfo, hparse, Event.isInput]
  | ok manifest =>
  cases hgen : env.generateMap { ImageBuffer := img, RemoveSmall := !isTest, Name := name } with
  | error err => left; simp [processMap, hout, hin, himg, hinfo, hparse, hgen, Event.isInput]
  | ok result =>
  cases manifest with
  | none => left; simp [processMap, hout, hin, himg, hinfo, hparse, hgen, Event.isInput]
  | some original =>
    right
    exact ⟨outDir, inDir, img, info, original, result, rfl, rfl, himg, hinfo, hparse, hgen,
      by simp [processMap, hout, hin, himg, hinfo, hparse, hgen]⟩

/-- The output steps serialise nothing but the manifest they are given; when
they end with `nil`, they have serialised it and their last write is the result
of the serialisation, to manifest.json. -/
theorem writeOutputs_serialised (env : Env) (name mapDir : String) (result : MapResult)
    (manifest : Manifest) :
    (∀ m ∈ serialised (writeOutputs env name mapDir result manifest).1, m = manifest) ∧
    ((writeOutputs env name mapDir result manifest).2 = .returned none →
      serialised (writeOutputs env name mapDir result manifest).1 = [manifest] ∧
      ∃ bytes, env.marshalIndent manifest = .ok bytes ∧
        (writes (writeOutputs env name mapDir result manifest).1).getLast?
          = some (filepathJoin [mapDir, "manifest.json"], bytes)) := by
  unfold writeOutputs
  simp only []
  repeat' split
  all_goals simp_all [serialised, writes]
theorem trace_append_inputs (inputs rest : List Event) (h : ∀ e ∈ inputs, e.isInput = true) :
    serialised (inputs ++ rest) = serialised rest ∧ writes (inputs ++ rest) = writes rest := by
  obtain ⟨h1, h2⟩ := serialised_of_isInput inputs h
  simp only [serialised, writes] at h1 h2 ⊢
  rw [List.filterMap_append, List.filterMap_append, h1, h2]
  simp

/-- C4: every manifest that `processMap` hands to the serialiser comes from a
document that info.json was decoded to, and it binds every key other than
`map`, `map4x` and `map16x` as that document does: such a key is in the one
exactly when it is in the other, with the same value; and a call of
`processMap` that returns `nil` has serialised a manifest. -/
theorem merge_preserves_other_keys (env : Env) (name : String) (isTest : Bool) :
    (∀ merged ∈ serialised (processMap env name isTest).1,
      ∃ (inDir : String) (info : Bytes) (original : Manifest),
        inputMapDir env isTest = .ok inDir ∧
        env.readFile (filepathJoin [inDir, name, "info.json"]) = .ok info ∧
        env.unmarshal info = .ok (some original) ∧
        ∀ k, k ≠ "map" → k ≠ "map4x" → k ≠ "map16x" →
          GoMap.get? merged k = GoMap.get? original k) ∧
    ((processMap env name isTest).2 = .returned none →
      serialised (processMap env name isTest).1 ≠ []) := by
  rcases processMap_inv env name isTest with ⟨hin, hne⟩ |
    ⟨outDir, inDir, img, info, original, result, hout, hind, himg, hinfo, hparse, hgen, hrun⟩
  · have hs := (serialised_of_isInput _ hin).1
    exact ⟨fun merged hm => by rw [hs] at hm; simp at hm, fun h => absurd h hne⟩
  · have happ := (trace_append_inputs
      [.readFile (filepathJoin [inDir, name, "image.png"]),
       .readFile (filepathJoin [inDir, name, "info.json"]),
       .unmarshal info,
       .generateMap { ImageBuffer := img, RemoveSmall := !isTest, Name := name }]
      (writeOutputs env name (filepathJoin [outDir, name]) result
        (mergeSummaries original result)).1 (by simp [Event.isInput])).1
    have hw := writeOutputs_serialised env name (filepathJoin [outDir, name]) result
      (mergeSummaries original result)
    rw [hrun]
    simp only []
    rw [happ]
    constructor
    · intro merged hm
      refine ⟨inDir, info, original, hind, hinfo, hparse, fun k h1 h2 h3 => ?_⟩
      rw [hw.1 merged hm]
      exact get?_mergeSummaries_other original result k h1 h2 h3
    · intro h
      rw [(hw.2 h).1]
      simp

/-- The map `world` of `sampleEnv`: the serialised manifest keeps the key
`name` of info.json with its value. -/
theorem merge_preserves_other_keys_witness :
    ∃ (inDir : String) (info : Bytes) (original : Manifest),
      inputMapDir sampleEnv false = .ok inDir ∧
      sampleEnv.readFile (filepathJoin [inDir, "world", "info.json"]) = .ok info ∧
      sampleEnv.unmarshal info = .ok (some original) ∧
      ∀ k, k ≠ "map" → k ≠ "map4x" → k ≠ "map16x" →
        GoMap.get? (mergeSummaries
            [("name", .decoded { token := "World" }), ("map", .decoded { token := "stale" })]
            { Map := { Data := [137, 80, 78, 71], Width := 8, Height := 4, NumLandTiles := 20 },
              Map4x := { Data := [1], Width := 4, Height := 2, NumLandTiles := 5 },
              Map16x := { Data := [2], Width := 2, Height := 1, NumLandTiles := 1 },
              Thumbnail := [3] }) k = GoMap.get? original k :=
  (merge_preserves_other_keys sampleEnv "world" false).1 _ (by decide)

/-- C5: when `processMap` returns `nil`, it has called the generator once, with
success, it has serialised one manifest, and its last write is the result of
that serialisation, to manifest.json in the directory of the map; in that
manifest the keys `map`, `map4x` and `map16x` are bound to the maps whose
`width`, `height` and `num_land_tiles` are the values of the three variants of
the generator result, whatever info.json held under these keys. -/
theorem manifest_summaries_match (env : Env) (name : String) (isTest : Bool)
    (h : (processMap env name isTest).2 = .returned none) :
    ∃ (args : GeneratorArgs) (result : MapResult) (manifest : Manifest) (bytes : Bytes)
      (outDir : String),
      generatorCalls (processMap env name isTest).1 = [args] ∧
      env.generateMap args = .ok result ∧
      serialised (processMap env name isTest).1 = [manifest] ∧
      env.marshalIndent manifest = .ok bytes ∧
      outputMapDir env isTest = .ok outDir ∧
      (writes (processMap env name isTest).1).getLast?
        = some (filepathJoin [filepathJoin [outDir, name], "manifest.json"], bytes) ∧
      GoMap.get? manifest "map" = some (.summary [("width", result.Map.Width),
        ("height", result.Map.Height), ("num_land_tiles", result.Map.NumLandTiles)]) ∧
      GoMap.get? manifest "map4x" = some (.summary [("width", result.Map4x.Width),
        ("height", result.Map4x.Height), ("num_land_tiles", result.Map4x.NumLandTiles)]) ∧
      GoMap.get? manifest "map16x" = some (.summary [("width", result.Map16x.Width),
        ("height", result.Map16x.Height), ("num_land_tiles", result.Map16x.NumLandTiles)]) := by
  rcases processMap_inv env name isTest with ⟨_, hne⟩ |
    ⟨outDir, inDir, img, info, original, result, hout, hind, himg, hinfo, hparse, hgen, hrun⟩
  · exact absurd h hne
  · have happ := trace_append_inputs
      [.readFile (filepathJoin [inDir, name, "image.png"]),
       .readFile (filepathJoin [inDir, name, "info.json"]),
       .unmarshal info,
       .generateMap { ImageBuffer := img, RemoveSmall := !isTest, Name := name }]
      (writeOutputs env name (filepathJoin [outDir, name]) result
        (mergeSummaries original result)).1 (by simp [Event.isInput])
    have hw := writeOutputs_serialised env name (filepathJoin [outDir, name]) result
      (mergeSummaries original result)
    have hgw := generatorCalls_writeOutputs env name (filepathJoin [outDir, name]) result
      (mergeSummaries original result)
    rw [hrun] at h ⊢
    simp only [] at h ⊢
    have hcalls : generatorCalls
        ([Event.readFile (filepathJoin [inDir, name, "image.png"]),
          Event.readFile (filepathJoin [inDir, name, "info.json"]),
          Event.unmarshal info,
          Event.generateMap { ImageBuffer := img, RemoveSmall := !isTest, Name := name }]
          ++ (writeOutputs env name (filepathJoin [outDir, name]) result
                (mergeSummaries original result)).1)
        = [{ ImageBuffer := img, RemoveSmall := !isTest, Name := name }] := by
      simp only [generatorCalls] at hgw ⊢
      simp [List.filterMap_append, hgw]
    obtain ⟨hser, bytes, hbytes, hlast⟩ := hw.2 h
    obtain ⟨hs1, hs2, hs3⟩ := get?_mergeSummaries_summary original result
    refine ⟨_, result, mergeSummaries original result, bytes, outDir, hcalls, hgen, ?_, hbytes,
      hout, ?_, hs1, hs2, hs3⟩
    · rw [happ.1, hser]
    · rw [happ.2, hlast]

/-- The map `world` of `sampleEnv`, whose info.json has a stale `map` key: the
build succeeds and the manifest holds the sizes the generator reported. -/
theorem manifest_summaries_match_witness :
    (processMap sampleEnv "world" false).2 = .returned none ∧
    serialised (processMap sampleEnv "world" false).1 =
      [[("name", .decoded { token := "World" }),
        ("map", .summary [("width", 8), ("height", 4), ("num_land_tiles", 20)]),
        ("map4x", .summary [("width", 4), ("height", 2), ("num_land_tiles", 5)]),
        ("map16x", .summary [("width", 2), ("height", 1), ("num_land_tiles", 1)])]] ∧
    ∃ (args : GeneratorArgs) (result : MapResult) (manifest : Manifest) (bytes : Bytes)
      (outDir : String),
      generatorCalls (processMap sampleEnv "world" false).1 = [args] ∧
      sampleEnv.generateMap args = .ok result ∧
      serialised (processMap sampleEnv "world" false).1 = [manifest] ∧
      sampleEnv.marshalIndent manifest = .ok bytes ∧
      outputMapDir sampleEnv false = .ok outDir ∧
      (writes (processMap sampleEnv "world" false).1).getLast?
        = some (filepathJoin [filepathJoin [outDir, "world"], "manifest.json"], bytes) ∧
      GoMap.get? manifest "map" = some (.summary [("width", result.Map.Width),
        ("height", result.Map.Height), ("num_land_tiles", result.Map.NumLandTiles)]) ∧
      GoMap.get? manifest "map4x" = some (.summary [("width", result.Map4x.Width),
        ("height", result.Map4x.Height), ("num_land_tiles", result.Map4x.NumLandTiles)]) ∧
      GoMap.get? manifest "map16x" = some (.summary [("width", result.Map16x.Width),
        ("height", result.Map16x.Height), ("num_land_tiles", result.Map16x.NumLandTiles)]) :=
  ⟨by decide, by decide, manifest_summaries_match sampleEnv "world" false (by decide)⟩
theorem artifact_path_ne_manifest (mapDir : String) :
    filepathJoin [mapDir, "map.bin"] ≠ filepathJoin [mapDir, "manifest.json"] ∧
    filepathJoin [mapDir, "map4x.bin"] ≠ filepathJoin [mapDir, "manifest.json"] ∧
    filepathJoin [mapDir, "map16x.bin"] ≠ filepathJoin [mapDir, "manifest.json"] ∧
    filepathJoin [mapDir, "thumbnail.webp"] ≠ filepathJoin [mapDir, "manifest.json"] := by
  have hm := outputFiles_ordinary "manifest.json" (by decide)
  refine ⟨?_, ?_, ?_, ?_⟩
  · intro h
    exact absurd (filepathJoin_file_injective mapDir _ _
      (outputFiles_ordinary "map.bin" (by decide)) hm h) (by decide)
  · intro h
    exact absurd (filepathJoin_file_injective mapDir _ _
      (outputFiles_ordinary "map4x.bin" (by decide)) hm h) (by decide)
  · intro h
    exact absurd (filepathJoin_file_injective mapDir _ _
      (outputFiles_ordinary "map16x.bin" (by decide)) hm h) (by decide)
  · intro h
    exact absurd (filepathJoin_file_injective mapDir _ _
      (outputFiles_ordinary "thumbnail.webp" (by decide)) hm h) (by decide)

/-- The order of the output steps: a failed step other than the write of
manifest.json makes the steps end with an error and without a write of
manifest.json; and a write of manifest.json is the last of the seven steps,
after the directory was created and the four artifacts were written, each with
success. -/
theorem writeOutputs_order (env : Env) (name mapDir : String) (result : MapResult)
    (manifest : Manifest) :
    (∀ e ∈ (writeOutputs env name mapDir result manifest).1,
      e.failed env = true → e.isManifestWrite mapDir = false →
        (∃ err, (writeOutputs env name mapDir result manifest).2 = .returned (some err)) ∧
        ∀ e' ∈ (writeOutputs env name mapDir result manifest).1,
          e'.isManifestWrite mapDir = false) ∧
    (∀ e ∈ (writeOutputs env name mapDir result manifest).1,
      e.isManifestWrite mapDir = true →
        ∃ bytes,
          (writeOutputs env name mapDir result manifest).1 =
            [.mkdirAll mapDir 493,
             .writeFile (filepathJoin [mapDir, "map.bin"]) result.Map.Data 420,
             .writeFile (filepathJoin [mapDir, "map4x.bin"]) result.Map4x.Data 420,
             .writeFile (filepathJoin [mapDir, "map16x.bin"]) result.Map16x.Data 420,
             .writeFile (filepathJoin [mapDir, "thumbnail.webp"]) result.Thumbnail 420,
             .marshalIndent manifest,
             .writeFile (filepathJoin [mapDir, "manifest.json"]) bytes 420] ∧
          e = .writeFile (filepathJoin [mapDir, "manifest.json"]) bytes 420 ∧
          env.marshalIndent manifest = .ok bytes ∧
          env.mkdirAll mapDir 493 = none ∧
          env.writeFile (filepathJoin [mapDir, "map.bin"]) result.Map.Data 420 = none ∧
          env.writeFile (filepathJoin [mapDir, "map4x.bin"]) result.Map4x.Data 420 = none ∧
          env.writeFile (filepathJoin [mapDir, "map16x.bin"]) result.Map16x.Data 420 = none ∧
          env.writeFile (filepathJoin [mapDir, "thumbnail.webp"]) result.Thumbnail 420 = none) := by
  obtain ⟨p1, p2, p3, p4⟩ := artifact_path_ne_manifest mapDir
  cases h0 : env.mkdirAll mapDir 493 with
  | some err => simp [writeOutputs, h0, Event.isManifestWrite]
  | none =>
  cases h1 : env.writeFile (filepathJoin [mapDir, "map.bin"]) result.Map.Data 420 with
  | some err => simp [writeOutputs, h0, h1, Event.isManifestWrite, p1]
  | none =>
  cases h2 : env.writeFile (filepathJoin [mapDir, "map4x.bin"]) result.Map4x.Data 420 with
  | some err => simp [writeOutputs, h0, h1, h2, Event.isManifestWrite, p1, p2]
  | none =>
  cases h3 : env.writeFile (filepathJoin [mapDir, "map16x.bin"]) result.Map16x.Data 420 with
  | some err => simp [writeOutputs, h0, h1, h2, h3, Event.isManifestWrite, p1, p2, p3]
  | none =>
  cases h4 : env.writeFile (filepathJoin [mapDir, "thumbnail.webp"]) result.Thumbnail 420 with
  | some err => simp [writeOutputs, h0, h1, h2, h3, h4, Event.isManifestWrite, p1, p2, p3, p4]
  | none =>
  cases h5 : env.marshalIndent manifest with
  | error err =>
    simp [writeOutputs, h0, h1, h2, h3, h4, h5, Event.isManifestWrite, p1, p2, p3, p4]
  | ok bytes =>
  cases h6 : env.writeFile (filepathJoin [mapDir, "manifest.json"]) bytes 420 with
  | some err =>
    simp [writeOutputs, h0, h1, h2, h3, h4, h5, h6, Event.isManifestWrite, Event.failed,
      p1, p2, p3, p4]
  | none =>
    simp [writeOutputs, h0, h1, h2, h3, h4, h5, h6, Event.isManifestWrite, Event.failed,
      p1, p2, p3, p4]
theorem isInput_not_output (mapDir : String) (env : Env) (e : Event)
    (h : e.isInput = true) : e.failed env = false ∧ e.isManifestWrite mapDir = false := by
  cases e <;> simp_all [Event.isInput, Event.failed, Event.isManifestWrite]

/-- C6: in a run of `processMap` whose output directory is
`filepath.Join(outDir, name)`, a failed `os.MkdirAll` or a failed `os.WriteFile`
of a file other than manifest.json makes `processMap` return an error without
any write of manifest.json; and when manifest.json is written, that write is
the last call of the run and comes after the creation of the directory, the
writes of map.bin, map4x.bin, map16x.bin and thumbnail.webp, all of which
succeeded, and the serialisation of the manifest. -/
theorem manifest_written_last (env : Env) (name : String) (isTest : Bool) (outDir : String)
    (hout : outputMapDir env isTest = .ok outDir) :
    (∀ e ∈ (processMap env name isTest).1,
      e.failed env = true → e.isManifestWrite (filepathJoin [outDir, name]) = false →
        (∃ err, (processMap env name isTest).2 = .returned (some err)) ∧
        ∀ e' ∈ (processMap env name isTest).1,
          e'.isManifestWrite (filepathJoin [outDir, name]) = false) ∧
    (∀ e ∈ (processMap env name isTest).1,
      e.isManifestWrite (filepathJoin [outDir, name]) = true →
        ∃ (inputs : List Event) (result : MapResult) (manifest : Manifest) (bytes : Bytes),
          (∀ i ∈ inputs, i.isInput = true) ∧
          (processMap env name isTest).1 = inputs ++
            [.mkdirAll (filepathJoin [outDir, name]) 493,
             .writeFile (filepathJoin [filepathJoin [outDir, name], "map.bin"])
               result.Map.Data 420,
             .writeFile (filepathJoin [filepathJoin [outDir, name], "map4x.bin"])
               result.Map4x.Data 420,
             .writeFile (filepathJoin [filepathJoin [outDir, name], "map16x.bin"])
               result.Map16x.Data 420,
             .writeFile (filepathJoin [filepathJoin [outDir, name], "thumbnail.webp"])
               result.Thumbnail 420,
             .marshalIndent manifest,
             .writeFile (filepathJoin [filepathJoin [outDir, name], "manifest.json"])
               bytes 420] ∧
          e = .writeFile (filepathJoin [filepathJoin [outDir, name], "manifest.json"])
                bytes 420 ∧
          env.marshalIndent manifest = .ok bytes ∧
          env.mkdirAll (filepathJoin [outDir, name]) 493 = none ∧
          env.writeFile (filepathJoin [filepathJoin [outDir, name], "map.bin"])
            result.Map.Data 420 = none ∧
          env.writeFile (filepathJoin [filepathJoin [outDir, name], "map4x.bin"])
            result.Map4x.Data 420 = none ∧
          env.writeFile (filepathJoin [filepathJoin [outDir, name], "map16x.bin"])
            result.Map16x.Data 420 = none ∧
          env.writeFile (filepathJoin [filepathJoin [outDir, name], "thumbnail.webp"])
            result.Thumbnail 420 = none) := by
  rcases processMap_inv env name isTest with ⟨hin, _⟩ |
    ⟨outDir', inDir, img, info, original, result, hout', hind, himg, hinfo, hparse, hgen, hrun⟩
  · constructor
    · intro e he hf
      rw [(isInput_not_output (filepathJoin [outDir, name]) env e (hin e he)).1] at hf
      cases hf
    · intro e he hm
      rw [(isInput_not_output (filepathJoin [outDir, name]) env e (hin e he)).2] at hm
      cases hm
  · have hdir : outDir' = outDir := by
      rw [hout] at hout'
      cases hout'
      rfl
    subst hdir
    obtain ⟨ha, hb⟩ := writeOutputs_order env name (filepathJoin [outDir', name]) result
      (mergeSummaries original result)
    have hinputs : ∀ i ∈ [Event.readFile (filepathJoin [inDir, name, "image.png"]),
        Event.readFile (filepathJoin [inDir, name, "info.json"]),
        Event.unmarshal info,
        Event.generateMap { ImageBuffer := img, RemoveSmall := !isTest, Name := name }],
        i.isInput = true := by
      simp [Event.isInput]
    rw [hrun]
    simp only []
    constructor
    · intro e he hf hm
      rcases List.mem_append.mp he with he | he
      · rw [(isInput_not_output (filepathJoin [outDir', name]) env e (hinputs e he)).1] at hf
        cases hf
      · obtain ⟨herr, hno⟩ := ha e he hf hm
        refine ⟨herr, fun e' he' => ?_⟩
        rcases List.mem_append.mp he' with he' | he'
        · exact (isInput_not_output (filepathJoin [outDir', name]) env e' (hinputs e' he')).2
        · exact hno e' he'
    · intro e he hm
      rcases List.mem_append.mp he with he | he
      · rw [(isInput_not_output (filepathJoin [outDir', name]) env e (hinputs e he)).2] at hm
        cases hm
      · obtain ⟨bytes, htrace, hrest⟩ := hb e he hm
        exact ⟨_, result, mergeSummaries original result, bytes, hinputs,
          by rw [htrace], hrest⟩

/-- On the disk of `fullDiskEnv` the write of map16x.bin fails: the job returns
that failure and writes no manifest.json. -/
theorem manifest_written_last_witness :
    (∃ err, (processMap fullDiskEnv "world" false).2 = .returned (some err)) ∧
    ∀ e' ∈ (processMap fullDiskEnv "world" false).1,
      e'.isManifestWrite (filepathJoin ["/repo/resources/maps", "world"]) = false :=
  (manifest_written_last fullDiskEnv "world" false "/repo/resources/maps" rfl).1
    (.writeFile "/repo/resources/maps/world/map16x.bin" [2] 420) (by decide) (by decide)
    (by decide)
end MapGenerator
